import Mathlib

/-!
# endeavour: the Nexus upload driver

A shallow embedding of `nexus.go` (package `endeavour`) and the properties of
its upload driver: configuration validation, the directory walk with its
fail-fast error policy, URL construction and response validation.

## Modelling conventions

* Go strings are Lean `String`s; a Go `error` is `Option String` holding the
  text of `err.Error()`, `none` being `nil`. `fmt.Errorf` with `%s`, `%d`, `%w`
  is string concatenation (`%d` of an `int` is `toString` on `Int`).
* Everything outside the package (the operating system, the Go standard
  library's `filepath.Walk`, the HTTP server) is a `Host`: a record of the
  answers the outside world gives, each a function of the arguments of the
  call. The functions of `nexus.go` are translated line by line over it.
* Every call that leaves the process is recorded, in order, in a trace of
  `Action`s.
* The `Verbose` log lines are not part of the model.
-/

namespace Endeavour

/-! ## Data model -/

/-- Go's `Nexus` struct (nexus.go:13-22). -/
structure Nexus where
  Url : String
  Username : String
  Password : String
  Files : List String
  Repo : String
  Path : String
  Verbose : Bool
  currentPath : String
  deriving DecidableEq

/-- Go's `fileUploadInfo` struct (nexus.go:113-116). -/
structure fileUploadInfo where
  FilePath : String
  IsUploadingDir : Bool
  deriving DecidableEq

/-- The two methods of `os.FileInfo` the package calls: `Name()` and `IsDir()`. -/
structure FileInfo where
  Name : String
  IsDir : Bool
  deriving DecidableEq

/-- What the package reads of an `*http.Response`: the status code and the
outcome of `ioutil.ReadAll(response.Body)` (the body text, or a read error). -/
structure Response where
  StatusCode : Int
  Body : Except String String

/-- A filesystem entry as `filepath.Walk` meets it: a non-directory whose
`Lstat` succeeded, a directory with the outcome of reading its names
(`readErr`, `none` when the listing succeeded) and its entries in listing
order, or an entry whose `Lstat` failed. -/
inductive Node where
  | file (name : String)
  | dir (name : String) (readErr : Option String) (children : List Node)
  | broken (name : String) (err : String)

/-- The name of an entry inside its parent directory. -/
def Node.name : Node → String
  | .file n => n
  | .dir n _ _ => n
  | .broken n _ => n

/-- The outside world of one run. `Separator` is `os.PathSeparator`; `Stat` is
`os.Stat`; `Tree root` is what `filepath.Walk` finds when started at `root`;
`Join` is `filepath.Join` of a directory path and an entry name; `Open` is
`os.Open` (only its error matters); `NewRequest` is the error of
`http.NewRequest("PUT", url, f)`; `Do user pass file url` is the outcome of
`client.Do` for a PUT to `url` with basic credentials and the content of `file`
as body. -/
structure Host where
  Separator : Char
  Stat : String → Except String FileInfo
  Tree : String → Node
  Join : String → String → String
  Open : String → Option String
  NewRequest : String → Option String
  Do : String → String → String → String → Except String Response

/-- The calls that leave the process, as recorded in a trace. -/
inductive Action where
  | stat (path : String)
  | walk (root : String)
  | lstat (path : String)
  | readdir (path : String)
  | open (path : String)
  | put (url : String) (file : String)
  deriving DecidableEq

/-- The outcome of a call: the returned `error` and the actions performed. -/
structure Out where
  err : Option String
  trace : List Action
  deriving DecidableEq

/-- The outcome of `Upload`: the returned `error`, the actions performed and
the receiver `*o` as the call leaves it. -/
structure Run where
  err : Option String
  trace : List Action
  final : Nexus
  deriving DecidableEq

/-! ## Standard-library string helpers -/

/-- Go's `filepath.ToSlash`: the path unchanged when the separator is `/`,
otherwise `strings.ReplaceAll(path, string(Separator), "/")`. -/
def ToSlash (sep : Char) (path : String) : String :=
  if sep = '/' then path
  else String.mk (path.data.map fun c => if c = sep then '/' else c)

/-- Go's `strings.HasPrefix`. -/
def HasPrefix (s pre : String) : Bool :=
  pre.data.isPrefixOf s.data

/-- Go's `strings.TrimPrefix`: `s` without the leading `pre` when it starts
with it, `s` unchanged otherwise. -/
def TrimPrefix (s pre : String) : String :=
  if HasPrefix s pre then String.mk (s.data.drop pre.data.length) else s

/-! ## The functions of nexus.go -/

/-- Go's `checkError` (nexus.go:163-177). -/
def checkError (response : Response) : Option String :=
  if response.StatusCode = 201 then none
  else
    match response.Body with
    | .error err =>
      some ("response was " ++ toString response.StatusCode
        ++ ", expected 201; could not read response body - " ++ err)
    | .ok body =>
      if 0 < body.length then
        some ("response was " ++ toString response.StatusCode
          ++ ", expected 201; response body: " ++ body)
      else
        some ("response was " ++ toString response.StatusCode
          ++ ", expected 201; there was no response body")

/-- Go's `Nexus.nexusURL` (nexus.go:121-131). -/
def nexusURL (W : Host) (o : Nexus) (info : fileUploadInfo) : String :=
  o.Url ++ "/" ++ o.Repo ++ "/" ++ o.Path ++ "/" ++ ToSlash W.Separator info.FilePath

/-- Go's `Nexus.writeFileToServer` (nexus.go:134-161). `f.Name()` is the name
the file was opened with, `path`. -/
def writeFileToServer (W : Host) (o : Nexus) (path url : String) : Out :=
  match W.Open path with
  | some err => ⟨some ("could not open file " ++ path ++ " - " ++ err), [.open path]⟩
  | none =>
    match W.NewRequest url with
    | some err =>
      ⟨some ("could not form http request for file " ++ path ++ " - " ++ err), [.open path]⟩
    | none =>
      match W.Do o.Username o.Password path url with
      | .error err =>
        ⟨some ("could not upload " ++ path ++ " - " ++ err), [.open path, .put url path]⟩
      | .ok resp =>
        match checkError resp with
        | some err =>
          ⟨some ("could not upload " ++ path ++ " - " ++ err), [.open path, .put url path]⟩
        | none => ⟨none, [.open path, .put url path]⟩

/-- Go's `Nexus.uploadDirectory` (nexus.go:83-111), the callback handed to
`filepath.Walk`. -/
def uploadDirectory (W : Host) (o : Nexus) (aPath : String) (info : FileInfo)
    (err : Option String) : Out :=
  match err with
  | some e => ⟨some ("error: could not access file/dir - " ++ e), []⟩
  | none =>
    if info.IsDir then ⟨none, []⟩
    else if o.currentPath = "" then ⟨some "current root path cannot be empty", []⟩
    else
      let url := nexusURL W o
        ⟨TrimPrefix (ToSlash W.Separator aPath) (ToSlash W.Separator o.currentPath), true⟩
      let r := writeFileToServer W o aPath url
      match r.err with
      | some e => ⟨some ("could not upload file - " ++ e), r.trace⟩
      | none => ⟨none, r.trace⟩

/-! ## filepath.Walk

`filepath.Walk(root, fn)` of the Go standard library, with `fn` fixed to
`o.uploadDirectory`. The callback returns `nil` or a fresh `fmt.Errorf` value,
never the sentinels `filepath.SkipDir` and `filepath.SkipAll`, so the walk's
comparisons with them are always false and every non-nil error of the callback
ends the walk. When `Lstat` fails the walk passes a nil `FileInfo` together
with the error; the callback returns before reading it, and the model passes
the entry's name with `IsDir = false` in its place. -/

mutual
/-- One entry of the walk: `Lstat` of `path`, then the standard library's
`walk(path, info, fn)`. -/
def walk (W : Host) (o : Nexus) (path : String) : Node → Out
  | .broken name e =>
    let r := uploadDirectory W o path ⟨name, false⟩ (some e)
    ⟨r.err, .lstat path :: r.trace⟩
  | .file name =>
    let r := uploadDirectory W o path ⟨name, false⟩ none
    ⟨r.err, .lstat path :: r.trace⟩
  | .dir name readErr children =>
    let r := uploadDirectory W o path ⟨name, true⟩ readErr
    match readErr, r.err with
    | none, none =>
      let r2 := walkNames W o path children
      ⟨r2.err, .lstat path :: .readdir path :: (r.trace ++ r2.trace)⟩
    | _, _ => ⟨r.err, .lstat path :: .readdir path :: r.trace⟩
/-- The loop of `walk` over the names of a directory, in listing order. -/
def walkNames (W : Host) (o : Nexus) (path : String) : List Node → Out
  | [] => ⟨none, []⟩
  | c :: cs =>
    let r := walk W o (W.Join path c.name) c
    match r.err with
    | some e => ⟨some e, r.trace⟩
    | none =>
      let r2 := walkNames W o path cs
      ⟨r2.err, r.trace ++ r2.trace⟩
end

/-- Go's `filepath.Walk(root, o.uploadDirectory)`. -/
def Walk (W : Host) (o : Nexus) (root : String) : Out :=
  let r := walk W o root (W.Tree root)
  ⟨r.err, .walk root :: r.trace⟩

/-- The `for _, filePath := range o.Files` loop of `Upload` (nexus.go:49-72),
on the arguments still to process. `o.currentPath = filePath` assigns through
the pointer receiver; the method value `o.uploadDirectory` copies `*o` after
the assignment. -/
def uploadLoop (W : Host) (o : Nexus) : List String → Run
  | [] => ⟨none, [], o⟩
  | filePath :: rest =>
    match W.Stat filePath with
    | .error err => ⟨some ("could not stat " ++ filePath ++ " - " ++ err), [.stat filePath], o⟩
    | .ok info =>
      let o1 := { o with currentPath := filePath }
      let r :=
        if info.IsDir then Walk W o1 filePath
        else writeFileToServer W o1 filePath (nexusURL W o1 ⟨info.Name, false⟩)
      match r.err with
      | some err =>
        if info.IsDir then
          ⟨some ("failed to upload files in " ++ filePath ++ "  - " ++ err),
            .stat filePath :: r.trace, o1⟩
        else
          ⟨some ("could not upload single file " ++ filePath ++ " - " ++ err),
            .stat filePath :: r.trace, o1⟩
      | none =>
        let r2 := uploadLoop W o1 rest
        ⟨r2.err, .stat filePath :: (r.trace ++ r2.trace), r2.final⟩

/-- Go's `Nexus.Upload` (nexus.go:26-73). -/
def Upload (W : Host) (o : Nexus) : Run :=
  if o.Url = "" then ⟨some "a URL must be set", [], o⟩
  else if o.Username = "" then ⟨some "nexus username must be set", [], o⟩
  else if o.Password = "" then ⟨some "nexus password must be set", [], o⟩
  else if o.Files.length < 1 then ⟨some "files to upload must be provided", [], o⟩
  else if o.Repo = "" then ⟨some "a repo must be set", [], o⟩
  else if o.Path = "" then ⟨some "a path must be set", [], o⟩
  else uploadLoop W o o.Files

/-! ## Specification-side vocabulary -/

/-- The required fields in the order the specification checks them (base URL,
username, password, file list, repository, destination path), each with
whether it is unset and the error that names it. -/
def requiredFields (o : Nexus) : List (Bool × String) :=
  [ (decide (o.Url = ""), "a URL must be set"),
    (decide (o.Username = ""), "nexus username must be set"),
    (decide (o.Password = ""), "nexus password must be set"),
    (decide (o.Files = []), "files to upload must be provided"),
    (decide (o.Repo = ""), "a repo must be set"),
    (decide (o.Path = ""), "a path must be set") ]

/-- The error naming the first unset required field, `none` when every
required field is set. -/
def missingField (o : Nexus) : Option String :=
  ((requiredFields o).find? fun f => f.1).map fun f => f.2

/-- A configuration is valid when no required field is unset. -/
def Valid (o : Nexus) : Prop :=
  o.Url ≠ "" ∧ o.Username ≠ "" ∧ o.Password ≠ "" ∧ o.Files ≠ [] ∧ o.Repo ≠ "" ∧ o.Path ≠ ""

instance (o : Nexus) : Decidable (Valid o) := by
  unfold Valid; infer_instance

/-- One invocation of the walk's callback: the path, the `FileInfo` and the
error (of `Lstat` or of reading the directory) handed to `uploadDirectory`. -/
structure Visit where
  path : String
  info : FileInfo
  err : Option String
  deriving DecidableEq

mutual
/-- The entries under `node`, itself included, in walk order (an entry before
its children, children in listing order), each as the callback meets it. A
directory whose listing fails is visited and not entered. -/
def visits (W : Host) (path : String) : Node → List Visit
  | .broken name e => [⟨path, ⟨name, false⟩, some e⟩]
  | .file name => [⟨path, ⟨name, false⟩, none⟩]
  | .dir name readErr children =>
    ⟨path, ⟨name, true⟩, readErr⟩ ::
      (match readErr with
        | none => visitsNames W path children
        | some _ => [])
/-- The entries under the children of the directory `path`, in walk order. -/
def visitsNames (W : Host) (path : String) : List Node → List Visit
  | [] => []
  | c :: cs => visits W (W.Join path c.name) c ++ visitsNames W path cs
end

/-- What visiting one entry does by itself: the `Lstat`, the listing when the
entry is a directory, and the callback. -/
def entryStep (W : Host) (o : Nexus) (v : Visit) : Out :=
  let r := uploadDirectory W o v.path v.info v.err
  ⟨r.err, .lstat v.path :: ((if v.info.IsDir then [.readdir v.path] else []) ++ r.trace)⟩

/-- The steps of processing one argument of `Files`, each with the actions it
performs and its own failure: the stat of the argument; then, for a directory,
the start of the walk and one step per entry in walk order, and for a file its
transfer. The traversal root is the argument. -/
def argPlan (W : Host) (o : Nexus) (filePath : String) : List Out :=
  match W.Stat filePath with
  | .error e => [⟨some e, [.stat filePath]⟩]
  | .ok info =>
    ⟨none, [.stat filePath]⟩ ::
      (if info.IsDir then
        ⟨none, [.walk filePath]⟩ ::
          (visits W filePath (W.Tree filePath)).map
            (entryStep W { o with currentPath := filePath })
      else
        [writeFileToServer W { o with currentPath := filePath } filePath
          (nexusURL W { o with currentPath := filePath } ⟨info.Name, false⟩)])

/-- The steps of a whole run in list-then-walk order: the arguments of `Files`
in order, each with its steps. -/
def plan (W : Host) (o : Nexus) : List Out :=
  o.Files.flatMap (argPlan W o)

/-- The steps up to and including the first one that fails. -/
def uptoFailure : List Out → List Out
  | [] => []
  | s :: rest =>
    match s.err with
    | some _ => [s]
    | none => s :: uptoFailure rest

/-- The failure of the first failing step, `none` when no step fails. -/
def firstFailure : List Out → Option String
  | [] => none
  | s :: rest =>
    match s.err with
    | some e => some e
    | none => firstFailure rest

/-- Running steps fail-fast: the failure of the first failing step and the
actions of the steps up to and including it. -/
def failFast (steps : List Out) : Out :=
  ⟨firstFailure steps, (uptoFailure steps).flatMap Out.trace⟩

/-- The destination URL of an entry found at `path` by a walk rooted at
`root`. -/
def entryURL (W : Host) (o : Nexus) (root path : String) : String :=
  nexusURL W o ⟨TrimPrefix (ToSlash W.Separator path) (ToSlash W.Separator root), true⟩

/-- The host's side of transferring the file `path` to `url`: the file is
opened, the request formed and the PUT sent. The transfer fails when the file
does not open, the request cannot be formed, the PUT gets no response, or the
response has a status other than 201; its failure is the host's own error, or
the decimal text of the status. -/
def transferStep (W : Host) (user pass path url : String) : Out :=
  match W.Open path with
  | some e => ⟨some e, [.open path]⟩
  | none =>
    match W.NewRequest url with
    | some e => ⟨some e, [.open path]⟩
    | none =>
      match W.Do user pass path url with
      | .error e => ⟨some e, [.open path, .put url path]⟩
      | .ok resp =>
        if resp.StatusCode = 201 then ⟨none, [.open path, .put url path]⟩
        else ⟨some (toString resp.StatusCode), [.open path, .put url path]⟩

/-- The host's side of visiting one entry of a walk rooted at `root`: the
visit fails when the entry cannot be accessed (its `Lstat` or its listing
failed), with the host's error; a directory that could be listed is stepped
into and nothing is sent; a non-directory entry is transferred, unless the
root is empty, which is a failure of its own. -/
def visitStep (W : Host) (o : Nexus) (root : String) (v : Visit) : Out :=
  match v.err with
  | some e => ⟨some e, .lstat v.path :: (if v.info.IsDir then [.readdir v.path] else [])⟩
  | none =>
    if v.info.IsDir then ⟨none, [.lstat v.path, .readdir v.path]⟩
    else if root = "" then ⟨some "current root path cannot be empty", [.lstat v.path]⟩
    else
      let t := transferStep W o.Username o.Password v.path (entryURL W o root v.path)
      ⟨t.err, .lstat v.path :: t.trace⟩

/-- The host's side of processing one argument of `Files`: the stat of the
argument, failing with the host's error; then, for a directory, the start of
the walk and the visit of each entry in walk order, and for a file its
transfer to the URL of its base name. -/
def hostArgPlan (W : Host) (o : Nexus) (filePath : String) : List Out :=
  match W.Stat filePath with
  | .error e => [⟨some e, [.stat filePath]⟩]
  | .ok info =>
    ⟨none, [.stat filePath]⟩ ::
      (if info.IsDir then
        ⟨none, [.walk filePath]⟩ ::
          (visits W filePath (W.Tree filePath)).map (visitStep W o filePath)
      else
        [transferStep W o.Username o.Password filePath (nexusURL W o ⟨info.Name, false⟩)])

/-- The host's side of a whole run, in list-then-walk order: every step the
run would perform if nothing failed, each with the failure the host gives
it. -/
def hostPlan (W : Host) (o : Nexus) : List Out :=
  o.Files.flatMap (hostArgPlan W o)

/-- The PUT requests of a trace, in order: the URL and the local file sent. -/
def puts : List Action → List (String × String)
  | [] => []
  | .put url file :: rest => (url, file) :: puts rest
  | _ :: rest => puts rest

/-- One text occurs inside another. -/
def Contains (msg part : String) : Prop :=
  part.data <:+: msg.data

instance (msg part : String) : Decidable (Contains msg part) := by
  unfold Contains; infer_instance

/-- A step of the code wraps a step of the host: the same actions, no error
when the host's step does not fail, and otherwise an error that holds the
host's failure. -/
def Wraps (s t : Out) : Prop :=
  s.trace = t.trace ∧ (t.err = none → s.err = none) ∧
  ∀ c, t.err = some c → ∃ m, s.err = some m ∧ Contains m c

/-- The PUT the walk issues for a non-directory entry: the URL built from the
entry's path with the traversal root trimmed, and the entry's path as file. -/
def entryPut (W : Host) (o : Nexus) (v : Visit) : String × String :=
  (nexusURL W o
    ⟨TrimPrefix (ToSlash W.Separator v.path) (ToSlash W.Separator o.currentPath), true⟩, v.path)

/-- A step performs at least one action, and when its last action is a PUT
whose response `checkError` rejects, the step fails with an error that holds
the message of `checkError`. -/
def PutFailure (W : Host) (user pass : String) (s : Out) : Prop :=
  s.trace ≠ [] ∧
  ∀ url file resp msg, s.trace.getLast? = some (.put url file) →
    W.Do user pass file url = .ok resp → checkError resp = some msg →
      ∃ m, s.err = some m ∧ Contains m msg

/-! ## Sample hosts and configurations -/

/-- A host with `/` as separator holding the regular file `f.bin`, the
directory `d` with `x.txt` and `sub/y.txt`, the directory `root` with
`a/b.txt`, the empty directory `empty` and the directory `dirs` with the empty
sub-directories `a` and `b`; names are listed in lexical order, as
`filepath.Walk` reads them; every file opens and the server answers every PUT
with 201. -/
def sampleHost : Host where
  Separator := '/'
  Stat := fun p =>
    if p = "f.bin" then .ok ⟨"f.bin", false⟩
    else if p = "d" then .ok ⟨"d", true⟩
    else if p = "root" then .ok ⟨"root", true⟩
    else if p = "empty" then .ok ⟨"empty", true⟩
    else if p = "dirs" then .ok ⟨"dirs", true⟩
    else .error ("stat " ++ p ++ ": no such file or directory")
  Tree := fun p =>
    if p = "f.bin" then .file "f.bin"
    else if p = "d" then .dir "d" none [.dir "sub" none [.file "y.txt"], .file "x.txt"]
    else if p = "root" then .dir "root" none [.dir "a" none [.file "b.txt"]]
    else if p = "empty" then .dir "empty" none []
    else if p = "dirs" then .dir "dirs" none [.dir "a" none [], .dir "b" none []]
    else .broken p ("lstat " ++ p ++ ": no such file or directory")
  Join := fun d n => d ++ "/" ++ n
  Open := fun _ => none
  NewRequest := fun _ => none
  Do := fun _ _ _ _ => .ok ⟨201, .ok ""⟩

/-- The sample host with a server that answers every PUT with status 500 and
the body `server error`. -/
def failingHost : Host :=
  { sampleHost with Do := fun _ _ _ _ => .ok ⟨500, .ok "server error"⟩ }

/-- The sample host with two more directories: `locked`, which holds the
sub-directory `in` that cannot be listed and the file `x.txt`, and `lost`,
which holds the entry `gone` that cannot be accessed and the file `x.txt`. -/
def brokenHost : Host :=
  { sampleHost with
    Stat := fun p =>
      if p = "locked" then .ok ⟨"locked", true⟩
      else if p = "lost" then .ok ⟨"lost", true⟩
      else sampleHost.Stat p
    Tree := fun p =>
      if p = "locked" then
        .dir "locked" none
          [.dir "in" (some "open locked/in: permission denied") [.file "z.txt"], .file "x.txt"]
      else if p = "lost" then
        .dir "lost" none
          [.broken "gone" "lstat lost/gone: no such file or directory", .file "x.txt"]
      else sampleHost.Tree p }

/-- The sample host with two more regular files: `secret.bin`, which cannot be
opened, and `pct%zz.txt`, for whose URL no request can be formed. -/
def strictHost : Host :=
  { sampleHost with
    Stat := fun p =>
      if p = "secret.bin" then .ok ⟨"secret.bin", false⟩
      else if p = "pct%zz.txt" then .ok ⟨"pct%zz.txt", false⟩
      else sampleHost.Stat p
    Open := fun p =>
      if p = "secret.bin" then some "open secret.bin: permission denied" else none
    NewRequest := fun url =>
      if url = "http://h/r/p/pct%zz.txt" then
        some "parse \"http://h/r/p/pct%zz.txt\": invalid URL escape \"%zz\""
      else none }

/-- The configuration of the end-to-end scenario: `http://h`, `r`, `p`. -/
def sampleNexus (files : List String) : Nexus where
  Url := "http://h"
  Username := "user"
  Password := "secret"
  Files := files
  Repo := "r"
  Path := "p"
  Verbose := false
  currentPath := ""

/-! ## Helper lemmas -/

theorem uploadLoop_err_shape (W : Host) (files : List String) :
    ∀ (o : Nexus) (m : String), (uploadLoop W o files).err = some m →
      ∃ p e, m = "could not stat " ++ p ++ " - " ++ e
        ∨ m = "failed to upload files in " ++ p ++ "  - " ++ e
        ∨ m = "could not upload single file " ++ p ++ " - " ++ e := by
  induction files with
  | nil => intro o m h; simp [uploadLoop] at h
  | cons filePath rest ih =>
    intro o m h
    simp only [uploadLoop] at h
    split at h
    · exact ⟨filePath, _, Or.inl (by simpa using h.symm)⟩
    · split at h
      · split at h
        · exact ⟨filePath, _, Or.inr (Or.inl (by simpa using h.symm))⟩
        · exact ⟨filePath, _, Or.inr (Or.inr (by simpa using h.symm))⟩
      · exact ih _ m h

theorem uploadLoop_err_not_missing (W : Host) (o : Nexus) (files : List String)
    (f : Bool × String) (hf : f ∈ requiredFields o) :
    (uploadLoop W o files).err ≠ some f.2 := by
  intro h
  obtain ⟨p, e, hm⟩ := uploadLoop_err_shape W files o f.2 h
  simp only [requiredFields, List.mem_cons, List.mem_singleton, List.not_mem_nil, or_false] at hf
  rcases hf with hf | hf | hf | hf | hf | hf <;> subst hf <;>
    rcases hm with hm | hm | hm <;>
    · have := congrArg String.data hm
      simp [String.data_append] at this

theorem Upload_of_valid (W : Host) (o : Nexus) (h : Valid o) :
    Upload W o = uploadLoop W o o.Files := by
  obtain ⟨h1, h2, h3, h4, h5, h6⟩ := h
  have h4' : ¬ o.Files.length < 1 := by
    cases hF : o.Files with
    | nil => exact absurd hF h4
    | cons a l => simp
  simp [Upload, h1, h2, h3, h4', h5, h6]

/-! ### Fail-fast sequences -/

theorem failFast_nil : failFast [] = ⟨none, []⟩ := rfl

theorem failFast_cons_fail (s : Out) (rest : List Out) (e : String) (h : s.err = some e) :
    failFast (s :: rest) = ⟨some e, s.trace⟩ := by
  simp [failFast, firstFailure, uptoFailure, h]

theorem failFast_cons_ok (s : Out) (rest : List Out) (h : s.err = none) :
    failFast (s :: rest) = ⟨(failFast rest).err, s.trace ++ (failFast rest).trace⟩ := by
  simp [failFast, firstFailure, uptoFailure, h]

theorem failFast_append_ok (a b : List Out) (h : (failFast a).err = none) :
    failFast (a ++ b) = ⟨(failFast b).err, (failFast a).trace ++ (failFast b).trace⟩ := by
  induction a with
  | nil => simp [failFast_nil]
  | cons s rest ih =>
    cases hs : s.err with
    | some e => rw [failFast_cons_fail s rest e hs] at h; simp at h
    | none =>
      rw [failFast_cons_ok s rest hs] at h
      rw [List.cons_append, failFast_cons_ok s (rest ++ b) hs, ih h, failFast_cons_ok s rest hs]
      simp

theorem failFast_append_fail (a b : List Out) (e : String) (h : (failFast a).err = some e) :
    failFast (a ++ b) = failFast a := by
  induction a with
  | nil => simp [failFast_nil] at h
  | cons s rest ih =>
    cases hs : s.err with
    | some e1 =>
      rw [List.cons_append, failFast_cons_fail s (rest ++ b) e1 hs, failFast_cons_fail s rest e1 hs]
    | none =>
      rw [failFast_cons_ok s rest hs] at h
      rw [List.cons_append, failFast_cons_ok s (rest ++ b) hs, ih h, failFast_cons_ok s rest hs]

/-! ### The walk is the fail-fast run of its visits -/

mutual
theorem walk_eq_failFast (W : Host) (o : Nexus) :
    ∀ (path : String) (n : Node),
      walk W o path n = failFast ((visits W path n).map (entryStep W o))
  | path, .broken name e => by
    simp [walk, visits, entryStep, uploadDirectory, failFast, firstFailure, uptoFailure]
  | path, .file name => by
    simp only [walk, visits, List.map_cons, List.map_nil]
    cases h : (uploadDirectory W o path ⟨name, false⟩ none).err with
    | none =>
      rw [failFast_cons_ok _ _ (by simpa [entryStep] using h)]
      simp [entryStep, failFast_nil, h]
    | some e =>
      rw [failFast_cons_fail _ _ e (by simpa [entryStep] using h)]
      simp [entryStep, h]
  | path, .dir name none children => by
    have ih := walkNames_eq_failFast W o path children
    simp only [walk, visits, List.map_cons]
    rw [failFast_cons_ok _ _ (by simp [entryStep, uploadDirectory]), ← ih]
    simp [entryStep, uploadDirectory]
  | path, .dir name (some e) children => by
    simp [walk, visits, entryStep, uploadDirectory, failFast, firstFailure, uptoFailure]
theorem walkNames_eq_failFast (W : Host) (o : Nexus) :
    ∀ (path : String) (cs : List Node),
      walkNames W o path cs = failFast ((visitsNames W path cs).map (entryStep W o))
  | path, [] => by simp [walkNames, visitsNames, failFast_nil]
  | path, c :: cs => by
    have ih1 := walk_eq_failFast W o (W.Join path c.name) c
    have ih2 := walkNames_eq_failFast W o path cs
    simp only [walkNames, visitsNames, List.map_append]
    cases h : (walk W o (W.Join path c.name) c).err with
    | some e =>
      rw [failFast_append_fail _ _ e (by rw [← ih1]; exact h), ← ih1]
      cases hw : walk W o (W.Join path c.name) c with
      | mk err trace => rw [hw] at h; simp at h; simp [h]
    | none =>
      rw [failFast_append_ok _ _ (by rw [← ih1]; exact h), ← ih1, ← ih2]
end

/-! ### A run is the fail-fast run of its plan -/

theorem failFast_singleton (s : Out) : failFast [s] = s := by
  cases hs : s.err with
  | some e => rw [failFast_cons_fail s [] e hs, ← hs]
  | none => rw [failFast_cons_ok s [] hs, failFast_nil, ← hs]; simp

theorem Walk_eq_failFast (W : Host) (o : Nexus) (root : String) :
    Walk W o root
      = failFast (⟨none, [.walk root]⟩ :: (visits W root (W.Tree root)).map (entryStep W o)) := by
  rw [failFast_cons_ok _ _ rfl, ← walk_eq_failFast]
  simp [Walk]

theorem argPlan_currentPath (W : Host) (o : Nexus) (c filePath : String) :
    argPlan W { o with currentPath := c } filePath = argPlan W o filePath := rfl

theorem uploadLoop_plan (W : Host) (files : List String) :
    ∀ o : Nexus,
      (uploadLoop W o files).trace = (failFast (files.flatMap (argPlan W o))).trace ∧
      ((failFast (files.flatMap (argPlan W o))).err = none → (uploadLoop W o files).err = none) ∧
      (∀ f, (failFast (files.flatMap (argPlan W o))).err = some f →
        ∃ ctx, (uploadLoop W o files).err = some (ctx ++ f)) := by
  induction files with
  | nil => intro o; simp [uploadLoop, failFast_nil]
  | cons filePath rest ih =>
    intro o
    rw [List.flatMap_cons]
    cases hS : W.Stat filePath with
    | error e =>
      have hp : argPlan W o filePath = [⟨some e, [.stat filePath]⟩] := by simp [argPlan, hS]
      rw [hp, List.singleton_append, failFast_cons_fail _ _ e rfl]
      refine ⟨by simp [uploadLoop, hS], by simp, fun f hf => ?_⟩
      simp only [Option.some.injEq] at hf
      subst hf
      exact ⟨"could not stat " ++ filePath ++ " - ", by simp [uploadLoop, hS]⟩
    | ok info =>
      obtain ⟨tail, hp, hr⟩ : ∃ tail, argPlan W o filePath = ⟨none, [.stat filePath]⟩ :: tail ∧
          (if info.IsDir then Walk W { o with currentPath := filePath } filePath
            else writeFileToServer W { o with currentPath := filePath } filePath
              (nexusURL W { o with currentPath := filePath } ⟨info.Name, false⟩))
            = failFast tail := by
        by_cases hd : info.IsDir = true
        · refine ⟨⟨none, [.walk filePath]⟩ :: (visits W filePath (W.Tree filePath)).map
            (entryStep W { o with currentPath := filePath }), ?_, ?_⟩
          · simp only [argPlan, hS, hd, if_true]
          · simp only [hd, if_true]; exact Walk_eq_failFast W _ filePath
        · refine ⟨[writeFileToServer W { o with currentPath := filePath } filePath
            (nexusURL W { o with currentPath := filePath } ⟨info.Name, false⟩)], ?_, ?_⟩
          · simp [argPlan, hS, hd]
          · simp only [hd]; exact (failFast_singleton _).symm
      have ih1 := ih { o with currentPath := filePath }
      have hrest : rest.flatMap (argPlan W { o with currentPath := filePath })
          = rest.flatMap (argPlan W o) := rfl
      rw [hrest] at ih1
      rw [hp, List.cons_append, failFast_cons_ok _ _ rfl]
      simp only [uploadLoop, hS, hr]
      cases hT : (failFast tail).err with
      | some err =>
        rw [failFast_append_fail _ _ err hT]
        refine ⟨?_, ?_, fun f hf => ?_⟩
        · by_cases hd : info.IsDir = true <;> simp [hd]
        · simp [hT]
        · simp only [hT, Option.some.injEq] at hf
          subst hf
          by_cases hd : info.IsDir = true
          · exact ⟨"failed to upload files in " ++ filePath ++ "  - ", by simp [hd]⟩
          · exact ⟨"could not upload single file " ++ filePath ++ " - ", by simp [hd]⟩
      | none =>
        rw [failFast_append_ok _ _ hT]
        obtain ⟨iht, ihn, ihs⟩ := ih1
        exact ⟨by simp [iht], ihn, ihs⟩

theorem Upload_plan (W : Host) (o : Nexus) (hv : Valid o) :
    (Upload W o).trace = (failFast (plan W o)).trace ∧
    ((failFast (plan W o)).err = none → (Upload W o).err = none) ∧
    (∀ f, (failFast (plan W o)).err = some f → ∃ ctx, (Upload W o).err = some (ctx ++ f)) := by
  rw [Upload_of_valid W o hv]
  exact uploadLoop_plan W o.Files o

theorem failFast_split (before after : List Out) (s : Out) (f : String)
    (hb : ∀ b ∈ before, b.err = none) (hs : s.err = some f) :
    failFast (before ++ s :: after) = ⟨some f, before.flatMap Out.trace ++ s.trace⟩ := by
  induction before with
  | nil => simpa using failFast_cons_fail s after f hs
  | cons b rest ih =>
    have hb0 : b.err = none := hb b (List.mem_cons_self _ _)
    have ih1 := ih fun x hx => hb x (List.mem_cons_of_mem _ hx)
    rw [List.cons_append, failFast_cons_ok _ _ hb0, ih1]
    simp

/-! ### Texts inside texts -/

theorem Contains.mid (a b c : String) : Contains (a ++ b ++ c) b := by
  unfold Contains
  simp only [String.data_append]
  exact List.infix_append _ _ _

theorem Contains.left (a b : String) : Contains (a ++ b) a := by
  unfold Contains
  simp only [String.data_append]
  exact (List.prefix_append _ _).isInfix

theorem length_pos_iff (b : String) : 0 < b.length ↔ b ≠ "" := by
  cases b with
  | mk d =>
    cases d with
    | nil => exact ⟨fun h => absurd h (by decide), fun h => absurd rfl h⟩
    | cons c cs =>
      refine ⟨fun _ h => ?_, fun _ => ?_⟩
      · have := congrArg String.data h
        simp at this
      · show 0 < (c :: cs).length
        simp

theorem Contains.right (a b : String) : Contains (a ++ b) b := by
  unfold Contains
  simp only [String.data_append]
  exact (List.suffix_append _ _).isInfix

theorem Contains.trans {a b c : String} (h1 : Contains a b) (h2 : Contains b c) :
    Contains a c :=
  List.IsInfix.trans h2 h1

theorem Contains.append_left (ctx : String) {m part : String} (h : Contains m part) :
    Contains (ctx ++ m) part :=
  Contains.trans (Contains.right ctx m) h

/-! ### The last action of a failed transfer -/

theorem writeFileToServer_putFailure (W : Host) (o : Nexus) (path url : String) :
    PutFailure W o.Username o.Password (writeFileToServer W o path url) := by
  unfold writeFileToServer
  cases hO : W.Open path with
  | some e => exact ⟨by simp, by simp⟩
  | none =>
    cases hN : W.NewRequest url with
    | some e => exact ⟨by simp, by simp⟩
    | none =>
      cases hD : W.Do o.Username o.Password path url with
      | error e =>
        refine ⟨by simp, ?_⟩
        intro url1 file resp msg hl hd hc
        simp only [List.getLast?_cons_cons, List.getLast?_singleton, Option.some.injEq,
          Action.put.injEq] at hl
        obtain ⟨h1, h2⟩ := hl
        subst h1 h2
        rw [hD] at hd
        cases hd
      | ok r =>
        cases hC : checkError r with
        | some e =>
          simp only [hC]
          refine ⟨by simp, ?_⟩
          intro url1 file resp msg hl hd hc
          simp only [List.getLast?_cons_cons, List.getLast?_singleton, Option.some.injEq,
            Action.put.injEq] at hl
          obtain ⟨h1, h2⟩ := hl
          subst h1 h2
          rw [hD] at hd
          cases hd
          rw [hC] at hc
          cases hc
          exact ⟨_, rfl, Contains.right _ _⟩
        | none =>
          simp only [hC]
          refine ⟨by simp, ?_⟩
          intro url1 file resp msg hl hd hc
          simp only [List.getLast?_cons_cons, List.getLast?_singleton, Option.some.injEq,
            Action.put.injEq] at hl
          obtain ⟨h1, h2⟩ := hl
          subst h1 h2
          rw [hD] at hd
          cases hd
          rw [hC] at hc
          cases hc

theorem getLast?_append_put {l1 l2 : List Action} {u f : String}
    (h1 : ∀ a ∈ l1, ∀ u1 f1, a ≠ .put u1 f1)
    (h : (l1 ++ l2).getLast? = some (.put u f)) : l2.getLast? = some (.put u f) := by
  rw [List.getLast?_append] at h
  cases h2 : l2.getLast? with
  | some a => rw [h2] at h; simpa using h
  | none =>
    rw [h2] at h
    simp only [Option.or] at h
    exact absurd rfl (h1 _ (List.mem_of_getLast?_eq_some h) u f)

theorem uploadDirectory_put (W : Host) (o : Nexus) (aPath : String) (info : FileInfo)
    (err : Option String) (url file : String) (resp : Response) (msg : String)
    (hl : (uploadDirectory W o aPath info err).trace.getLast? = some (.put url file))
    (hd : W.Do o.Username o.Password file url = .ok resp) (hc : checkError resp = some msg) :
    ∃ m, (uploadDirectory W o aPath info err).err = some m ∧ Contains m msg := by
  unfold uploadDirectory at hl ⊢
  cases err with
  | some e => simp at hl
  | none =>
    by_cases hdir : info.IsDir = true
    · simp [hdir] at hl
    · by_cases hcp : o.currentPath = ""
      · simp [hdir, hcp] at hl
      · have hpf := writeFileToServer_putFailure W o aPath (nexusURL W o
          ⟨TrimPrefix (ToSlash W.Separator aPath) (ToSlash W.Separator o.currentPath), true⟩)
        simp only [hdir, hcp, if_false, Bool.false_eq_true] at hl ⊢
        generalize writeFileToServer W o aPath _ = w at hl hpf ⊢
        cases hwe : w.err with
        | some e =>
          simp only [hwe] at hl ⊢
          obtain ⟨m, hm, hcm⟩ := hpf.2 url file resp msg hl hd hc
          rw [hwe] at hm
          cases hm
          exact ⟨_, rfl, Contains.append_left _ hcm⟩
        | none =>
          simp only [hwe] at hl ⊢
          obtain ⟨m, hm, _⟩ := hpf.2 url file resp msg hl hd hc
          rw [hwe] at hm
          cases hm

theorem entryStep_putFailure (W : Host) (o : Nexus) (v : Visit) :
    PutFailure W o.Username o.Password (entryStep W o v) := by
  refine ⟨by simp [entryStep], ?_⟩
  intro url file resp msg hl hd hc
  have htr : (entryStep W o v).trace
      = (.lstat v.path :: (if v.info.IsDir then [.readdir v.path] else []))
        ++ (uploadDirectory W o v.path v.info v.err).trace := by
    simp [entryStep]
  rw [htr] at hl
  have hl2 := getLast?_append_put (by
    intro a ha u1 f1
    by_cases hdir : v.info.IsDir = true
    · simp [hdir] at ha
      rcases ha with ha | ha <;> simp [ha]
    · simp [hdir] at ha
      simp [ha]) hl
  exact uploadDirectory_put W o v.path v.info v.err url file resp msg hl2 hd hc

theorem argPlan_putFailure (W : Host) (o : Nexus) (filePath : String) :
    ∀ s ∈ argPlan W o filePath, PutFailure W o.Username o.Password s := by
  intro s hs
  unfold argPlan at hs
  cases hS : W.Stat filePath with
  | error e =>
    simp only [hS, List.mem_singleton] at hs
    subst hs
    exact ⟨by simp, by simp⟩
  | ok info =>
    simp only [hS, List.mem_cons] at hs
    rcases hs with hs | hs
    · subst hs
      exact ⟨by simp, by simp⟩
    · by_cases hdir : info.IsDir = true
      · simp only [hdir, if_true, List.mem_cons, List.mem_map] at hs
        rcases hs with hs | ⟨v, _, hv⟩
        · subst hs
          exact ⟨by simp, by simp⟩
        · subst hv
          exact entryStep_putFailure W { o with currentPath := filePath } v
      · simp only [hdir, List.mem_singleton] at hs
        simp only [Bool.false_eq_true, if_false, List.mem_singleton] at hs
        subst hs
        exact writeFileToServer_putFailure W { o with currentPath := filePath } filePath _

theorem plan_putFailure (W : Host) (o : Nexus) :
    ∀ s ∈ plan W o, PutFailure W o.Username o.Password s := by
  intro s hs
  simp only [plan, List.mem_flatMap] at hs
  obtain ⟨fp, _, hfp⟩ := hs
  exact argPlan_putFailure W o fp s hfp

theorem failFast_put (W : Host) (user pass : String) (steps : List Out)
    (h : ∀ s ∈ steps, PutFailure W user pass s)
    (url file : String) (resp : Response) (msg : String)
    (hl : (failFast steps).trace.getLast? = some (.put url file))
    (hd : W.Do user pass file url = .ok resp) (hc : checkError resp = some msg) :
    ∃ m, (failFast steps).err = some m ∧ Contains m msg := by
  induction steps with
  | nil => simp [failFast_nil] at hl
  | cons s rest ih =>
    have hs := h s (List.mem_cons_self _ _)
    cases hse : s.err with
    | some e =>
      rw [failFast_cons_fail s rest e hse] at hl ⊢
      obtain ⟨m, hm, hcm⟩ := hs.2 url file resp msg hl hd hc
      rw [hse] at hm
      cases hm
      exact ⟨_, rfl, hcm⟩
    | none =>
      rw [failFast_cons_ok s rest hse] at hl ⊢
      simp only at hl ⊢
      rw [List.getLast?_append] at hl
      cases h2 : (failFast rest).trace.getLast? with
      | some a =>
        rw [h2] at hl
        simp only [Option.or] at hl
        rw [← h2] at hl
        exact ih (fun x hx => h x (List.mem_cons_of_mem _ hx)) hl
      | none =>
        rw [h2] at hl
        simp only [Option.or] at hl
        obtain ⟨m, hm, _⟩ := hs.2 url file resp msg hl hd hc
        rw [hse] at hm
        cases hm

theorem Upload_invalid (W : Host) (o : Nexus) (h : ¬ Valid o) :
    (Upload W o).err ≠ none ∧ (Upload W o).trace = [] := by
  have hlen : o.Files.length < 1 ↔ o.Files = [] := by
    cases o.Files <;> simp
  unfold Valid at h
  unfold Upload
  split_ifs with g1 g2 g3 g4 g5 g6
  · exact ⟨by simp, rfl⟩
  · exact ⟨by simp, rfl⟩
  · exact ⟨by simp, rfl⟩
  · exact ⟨by simp, rfl⟩
  · exact ⟨by simp, rfl⟩
  · exact ⟨by simp, rfl⟩
  · exact absurd ⟨g1, g2, g3, fun hf => g4 (hlen.2 hf), g5, g6⟩ h

/-! ### PUT requests of a run -/

theorem puts_append (a b : List Action) : puts (a ++ b) = puts a ++ puts b := by
  induction a with
  | nil => rfl
  | cons x rest ih => cases x <;> simp [puts, ih]

theorem failFast_err_none_iff (steps : List Out) :
    (failFast steps).err = none ↔ ∀ s ∈ steps, s.err = none := by
  induction steps with
  | nil => simp [failFast_nil]
  | cons s rest ih =>
    cases hs : s.err with
    | some e => rw [failFast_cons_fail s rest e hs]; simp [hs]
    | none => rw [failFast_cons_ok s rest hs]; simp [hs, ih]

theorem failFast_puts_nil (steps : List Out) (h : ∀ s ∈ steps, puts s.trace = []) :
    puts (failFast steps).trace = [] := by
  induction steps with
  | nil => simp [failFast_nil, puts]
  | cons s rest ih =>
    have h0 := h s (List.mem_cons_self _ _)
    cases hs : s.err with
    | some e => rw [failFast_cons_fail s rest e hs]; exact h0
    | none =>
      rw [failFast_cons_ok s rest hs]
      simp only [puts_append, h0, ih fun x hx => h x (List.mem_cons_of_mem _ hx)]
      rfl

theorem entryStep_unset (W : Host) (o : Nexus) (v : Visit) (h : o.currentPath = "") :
    puts (entryStep W o v).trace = [] ∧
    ((entryStep W o v).err = none ↔ v.info.IsDir = true ∧ v.err = none) := by
  unfold entryStep uploadDirectory
  cases hve : v.err with
  | some e => by_cases hd : v.info.IsDir = true <;> simp [hd, puts]
  | none => by_cases hd : v.info.IsDir = true <;> simp [hd, h, puts]

theorem uploadLoop_empty_path_err (W : Host) (e : String) (hS : W.Stat "" = .error e)
    (files : List String) (hm : "" ∈ files) :
    ∀ o : Nexus, (uploadLoop W o files).err ≠ none := by
  induction files with
  | nil => simp at hm
  | cons a rest ih =>
    intro o
    by_cases ha : a = ""
    · subst ha
      simp [uploadLoop, hS]
    · have hm1 : "" ∈ rest := by
        rcases List.mem_cons.1 hm with h | h
        · exact absurd h.symm ha
        · exact h
      simp only [uploadLoop]
      cases W.Stat a with
      | error e1 => simp
      | ok info =>
        simp only
        split
        · split <;> simp
        · exact ih hm1 _

theorem uploadLoop_empty_path_trace (W : Host) (e : String) (hS : W.Stat "" = .error e)
    (pre post : List String) :
    ∀ o : Nexus, (uploadLoop W o (pre ++ "" :: post)).trace
      = (uploadLoop W o (pre ++ [""])).trace := by
  induction pre with
  | nil => intro o; simp [uploadLoop, hS]
  | cons a rest ih =>
    intro o
    simp only [List.cons_append, uploadLoop]
    cases W.Stat a with
    | error e1 => rfl
    | ok info =>
      simp only
      split
      · rfl
      · simp only [List.append_eq, ih]

theorem ToSlash_of_not_mem (sep : Char) (name : String)
    (h : sep = '/' ∨ sep ∉ name.data) : ToSlash sep name = name := by
  unfold ToSlash
  split_ifs with hs
  · rfl
  · have hn : sep ∉ name.data := h.resolve_left hs
    apply String.ext
    show name.data.map _ = name.data
    conv_rhs => rw [← List.map_id name.data]
    apply List.map_congr_left
    intro c hc
    have : c ≠ sep := fun hcs => hn (hcs ▸ hc)
    simp [this]

theorem TrimPrefix_append (root rest : String) : TrimPrefix (root ++ rest) root = rest := by
  unfold TrimPrefix HasPrefix
  have hp : root.data.isPrefixOf (root ++ rest).data = true := by
    rw [List.isPrefixOf_iff_prefix, String.data_append]
    exact List.prefix_append _ _
  rw [if_pos hp]
  apply String.ext
  simp [String.data_append]

theorem writeFileToServer_trace_ok (W : Host) (o : Nexus) (path url : String)
    (h : (writeFileToServer W o path url).err = none) :
    (writeFileToServer W o path url).trace = [.open path, .put url path] := by
  unfold writeFileToServer at h ⊢
  cases hO : W.Open path with
  | some e => simp [hO] at h
  | none =>
    cases hN : W.NewRequest url with
    | some e => simp [hO, hN] at h
    | none =>
      cases hD : W.Do o.Username o.Password path url with
      | error e => simp [hO, hN, hD] at h
      | ok r =>
        cases hC : checkError r with
        | some e => simp [hO, hN, hD, hC] at h
        | none => simp only [hC]

theorem entryStep_puts_ok (W : Host) (o : Nexus) (v : Visit)
    (h : (entryStep W o v).err = none) :
    puts (entryStep W o v).trace = if v.info.IsDir then [] else [entryPut W o v] := by
  unfold entryStep uploadDirectory at h ⊢
  cases hve : v.err with
  | some e => simp [hve] at h
  | none =>
    by_cases hd : v.info.IsDir = true
    · simp [hd, puts]
    · by_cases hcp : o.currentPath = ""
      · simp [hve, hd, hcp] at h
      · simp only [hve, hd, hcp, if_false, Bool.false_eq_true] at h ⊢
        have hw := writeFileToServer_trace_ok W o v.path (nexusURL W o
          ⟨TrimPrefix (ToSlash W.Separator v.path) (ToSlash W.Separator o.currentPath), true⟩)
        generalize writeFileToServer W o v.path _ = w at h hw ⊢
        cases hwe : w.err with
        | some e => simp [hwe] at h
        | none =>
          simp only [hwe]
          rw [hw hwe]
          simp [puts, entryPut]

theorem failFast_trace_ok (steps : List Out) (h : ∀ s ∈ steps, s.err = none) :
    (failFast steps).trace = steps.flatMap Out.trace := by
  induction steps with
  | nil => rfl
  | cons s rest ih =>
    rw [failFast_cons_ok s rest (h s (List.mem_cons_self _ _)),
      ih fun x hx => h x (List.mem_cons_of_mem _ hx)]
    simp

theorem visits_puts_ok (W : Host) (o : Nexus) (vs : List Visit)
    (h : ∀ v ∈ vs, (entryStep W o v).err = none) :
    puts ((vs.map (entryStep W o)).flatMap Out.trace)
      = (vs.filter fun v => !v.info.IsDir).map (entryPut W o) := by
  induction vs with
  | nil => rfl
  | cons v rest ih =>
    have h0 := entryStep_puts_ok W o v (h v (List.mem_cons_self _ _))
    have ih1 := ih fun x hx => h x (List.mem_cons_of_mem _ hx)
    rw [List.map_cons, List.flatMap_cons, puts_append, h0, ih1]
    by_cases hd : v.info.IsDir = true <;> simp [hd]

theorem Upload_directory_puts_of_ok (W : Host) (o : Nexus) (root : String) (info : FileInfo)
    (hv : Valid o) (hF : o.Files = [root]) (hstat : W.Stat root = .ok info)
    (hdir : info.IsDir = true) (hok : (Upload W o).err = none) :
    puts (Upload W o).trace
      = ((visits W root (W.Tree root)).filter fun v => !v.info.IsDir).map
          (entryPut W { o with currentPath := root }) := by
  obtain ⟨ht, _, he⟩ := Upload_plan W o hv
  have hp : plan W o = ⟨none, [.stat root]⟩ :: ⟨none, [.walk root]⟩ ::
      (visits W root (W.Tree root)).map (entryStep W { o with currentPath := root }) := by
    simp [plan, hF, argPlan, hstat, hdir]
  have hnone : (failFast (plan W o)).err = none := by
    cases hf : (failFast (plan W o)).err with
    | none => rfl
    | some f =>
      obtain ⟨ctx, hctx⟩ := he f hf
      rw [hok] at hctx
      cases hctx
  have hall := (failFast_err_none_iff _).1 hnone
  rw [ht, failFast_trace_ok _ hall, hp]
  simp only [List.flatMap_cons, puts_append]
  rw [visits_puts_ok W _ _ fun v hv1 => hall _ (by
    rw [hp]
    exact List.mem_cons_of_mem _ (List.mem_cons_of_mem _ (List.mem_map_of_mem _ hv1)))]
  simp [puts]

/-! ### The code wraps the host's plan -/

theorem checkError_contains_status (resp : Response) (h : resp.StatusCode ≠ 201) :
    ∃ msg, checkError resp = some msg ∧ Contains msg (toString resp.StatusCode) := by
  unfold checkError
  simp only [h, if_false]
  cases resp.Body with
  | error e =>
    exact ⟨_, rfl, Contains.trans (Contains.left _ _)
      (Contains.trans (Contains.left _ _) (Contains.right _ _))⟩
  | ok b =>
    by_cases hlen : 0 < b.length
    · simp only [hlen, if_true]
      exact ⟨_, rfl, Contains.trans (Contains.left _ _) (Contains.mid _ _ _)⟩
    · simp only [hlen, if_false]
      exact ⟨_, rfl, Contains.mid _ _ _⟩

theorem writeFileToServer_wraps (W : Host) (o : Nexus) (path url : String) :
    Wraps (writeFileToServer W o path url) (transferStep W o.Username o.Password path url) := by
  unfold writeFileToServer transferStep
  cases hO : W.Open path with
  | some e =>
    refine ⟨rfl, by simp, fun c hc => ?_⟩
    simp only [Option.some.injEq] at hc
    subst hc
    exact ⟨_, rfl, Contains.right _ _⟩
  | none =>
    cases hN : W.NewRequest url with
    | some e =>
      refine ⟨rfl, by simp, fun c hc => ?_⟩
      simp only [Option.some.injEq] at hc
      subst hc
      exact ⟨_, rfl, Contains.right _ _⟩
    | none =>
      cases hD : W.Do o.Username o.Password path url with
      | error e =>
        refine ⟨rfl, by simp, fun c hc => ?_⟩
        simp only [Option.some.injEq] at hc
        subst hc
        exact ⟨_, rfl, Contains.right _ _⟩
      | ok resp =>
        by_cases h201 : resp.StatusCode = 201
        · have hc : checkError resp = none := by simp [checkError, h201]
          simp only [hc, h201, if_true]
          exact ⟨rfl, fun _ => rfl, by simp⟩
        · obtain ⟨msg, hmsg, hcon⟩ := checkError_contains_status resp h201
          simp only [hmsg, h201, if_false]
          refine ⟨rfl, by simp, fun c hc => ?_⟩
          simp only [Option.some.injEq] at hc
          subst hc
          exact ⟨_, rfl, Contains.append_left _ hcon⟩

theorem entryStep_wraps (W : Host) (o : Nexus) (root : String) (v : Visit) :
    Wraps (entryStep W { o with currentPath := root } v) (visitStep W o root v) := by
  unfold entryStep uploadDirectory visitStep
  cases hve : v.err with
  | some e =>
    refine ⟨by simp, by simp, fun c hc => ?_⟩
    simp only [Option.some.injEq] at hc
    subst hc
    exact ⟨_, rfl, Contains.right _ _⟩
  | none =>
    by_cases hd : v.info.IsDir = true
    · simp only [hd, if_true]
      exact ⟨by simp, fun _ => rfl, by simp⟩
    · by_cases hr : root = ""
      · simp only [hd, hr, if_true, if_false, Bool.false_eq_true]
        refine ⟨by simp, by simp, fun c hc => ?_⟩
        simp only [Option.some.injEq] at hc
        subst hc
        exact ⟨_, rfl, List.infix_refl _⟩
      · have hw := writeFileToServer_wraps W { o with currentPath := root } v.path
          (entryURL W o root v.path)
        simp only [hd, hr, if_false, Bool.false_eq_true]
        change Wraps
          ⟨(match (writeFileToServer W { o with currentPath := root } v.path
              (entryURL W o root v.path)).err with
            | some e => (⟨some ("could not upload file - " ++ e),
                (writeFileToServer W { o with currentPath := root } v.path
                  (entryURL W o root v.path)).trace⟩ : Out)
            | none => ⟨none, (writeFileToServer W { o with currentPath := root } v.path
                  (entryURL W o root v.path)).trace⟩).err,
            .lstat v.path :: ([] ++ (match (writeFileToServer W { o with currentPath := root }
              v.path (entryURL W o root v.path)).err with
            | some e => (⟨some ("could not upload file - " ++ e),
                (writeFileToServer W { o with currentPath := root } v.path
                  (entryURL W o root v.path)).trace⟩ : Out)
            | none => ⟨none, (writeFileToServer W { o with currentPath := root } v.path
                  (entryURL W o root v.path)).trace⟩).trace)⟩
          ⟨(transferStep W o.Username o.Password v.path (entryURL W o root v.path)).err,
            .lstat v.path ::
              (transferStep W o.Username o.Password v.path (entryURL W o root v.path)).trace⟩
        generalize writeFileToServer W { o with currentPath := root } v.path
          (entryURL W o root v.path) = w at hw ⊢
        generalize transferStep W o.Username o.Password v.path (entryURL W o root v.path) = t
          at hw ⊢
        obtain ⟨ht, hn, he⟩ := hw
        cases hwe : w.err with
        | none =>
          refine ⟨by simp [ht], fun _ => rfl, fun c hc => ?_⟩
          obtain ⟨m, hm, _⟩ := he c hc
          rw [hwe] at hm
          cases hm
        | some e =>
          refine ⟨by simp [ht], fun hc => ?_, fun c hc => ?_⟩
          · rw [hn hc] at hwe
            cases hwe
          · obtain ⟨m, hm, hcon⟩ := he c hc
            rw [hwe] at hm
            cases hm
            exact ⟨_, rfl, Contains.append_left _ hcon⟩

theorem failFast_wraps {a b : List Out} (h : List.Forall₂ Wraps a b) :
    Wraps (failFast a) (failFast b) := by
  induction h with
  | nil => exact ⟨rfl, fun _ => rfl, by simp [failFast_nil]⟩
  | @cons s t a1 b1 hst _ ih =>
    obtain ⟨ht, hn, he⟩ := hst
    cases hte : t.err with
    | none =>
      rw [failFast_cons_ok s a1 (hn hte), failFast_cons_ok t b1 hte]
      exact ⟨by simp [ht, ih.1], ih.2.1, ih.2.2⟩
    | some c =>
      obtain ⟨m, hm, hcon⟩ := he c hte
      rw [failFast_cons_fail s a1 m hm, failFast_cons_fail t b1 c hte]
      refine ⟨ht, by simp, fun c1 hc1 => ?_⟩
      simp only [Option.some.injEq] at hc1
      subst hc1
      exact ⟨m, rfl, hcon⟩

theorem Wraps.same (s : Out) (h : s.err = none) : Wraps s s :=
  ⟨rfl, fun _ => h, fun c hc => by rw [h] at hc; cases hc⟩

theorem forall₂_map_wraps {α : Type} (f g : α → Out) (l : List α)
    (h : ∀ x, Wraps (f x) (g x)) : List.Forall₂ Wraps (l.map f) (l.map g) := by
  induction l with
  | nil => exact List.Forall₂.nil
  | cons x rest ih => exact List.Forall₂.cons (h x) ih

theorem forall₂_append_wraps {a b c d : List Out} (h1 : List.Forall₂ Wraps a b)
    (h2 : List.Forall₂ Wraps c d) : List.Forall₂ Wraps (a ++ c) (b ++ d) := by
  induction h1 with
  | nil => exact h2
  | cons hst _ ih => exact List.Forall₂.cons hst ih

theorem argPlan_wraps (W : Host) (o : Nexus) (filePath : String) :
    List.Forall₂ Wraps (argPlan W o filePath) (hostArgPlan W o filePath) := by
  unfold argPlan hostArgPlan
  cases hS : W.Stat filePath with
  | error e =>
    exact List.Forall₂.cons ⟨rfl, by simp, fun c hc => by
      simp only [Option.some.injEq] at hc
      subst hc
      exact ⟨_, rfl, List.infix_refl _⟩⟩ List.Forall₂.nil
  | ok info =>
    refine List.Forall₂.cons (Wraps.same _ rfl) ?_
    by_cases hd : info.IsDir = true
    · simp only [hd, if_true]
      exact List.Forall₂.cons (Wraps.same _ rfl)
        (forall₂_map_wraps _ _ _ fun v => entryStep_wraps W o filePath v)
    · simp only [hd, if_false, Bool.false_eq_true]
      exact List.Forall₂.cons
        (writeFileToServer_wraps W { o with currentPath := filePath } filePath _)
        List.Forall₂.nil

theorem plan_wraps (W : Host) (o : Nexus) :
    List.Forall₂ Wraps (plan W o) (hostPlan W o) := by
  unfold plan hostPlan
  induction o.Files with
  | nil => exact List.Forall₂.nil
  | cons fp rest ih =>
    rw [List.flatMap_cons, List.flatMap_cons]
    exact forall₂_append_wraps (argPlan_wraps W o fp) ih

theorem Upload_wraps_hostPlan (W : Host) (o : Nexus) (hv : Valid o) :
    (Upload W o).trace = (failFast (hostPlan W o)).trace ∧
    ((failFast (hostPlan W o)).err = none → (Upload W o).err = none) ∧
    (∀ c, (failFast (hostPlan W o)).err = some c →
      ∃ m, (Upload W o).err = some m ∧ Contains m c) := by
  obtain ⟨ht, hn, he⟩ := Upload_plan W o hv
  obtain ⟨wt, wn, we⟩ := failFast_wraps (plan_wraps W o)
  refine ⟨ht.trans wt, fun h => hn (wn h), fun c hc => ?_⟩
  obtain ⟨m, hm, hcon⟩ := we c hc
  obtain ⟨ctx, hctx⟩ := he m hm
  exact ⟨_, hctx, Contains.append_left ctx hcon⟩

/-! ## Configuration validation -/

/-- C1: for every configuration, `Upload` returns the error naming the first
unset required field in the order Url, Username, Password, Files, Repo, Path
(so with several fields unset the earliest one wins), and when no field is
unset it returns none of the six missing-field errors. -/
theorem Upload_missing_field_order (W : Host) (o : Nexus) :
    (∀ m, missingField o = some m → (Upload W o).err = some m) ∧
    (missingField o = none → ∀ f ∈ requiredFields o, (Upload W o).err ≠ some f.2) ∧
    (o.Url = "" → (Upload W o).err = some "a URL must be set") ∧
    (o.Url ≠ "" → o.Username = "" → (Upload W o).err = some "nexus username must be set") ∧
    (o.Url ≠ "" → o.Username ≠ "" → o.Password = "" →
      (Upload W o).err = some "nexus password must be set") ∧
    (o.Url ≠ "" → o.Username ≠ "" → o.Password ≠ "" → o.Files = [] →
      (Upload W o).err = some "files to upload must be provided") ∧
    (o.Url ≠ "" → o.Username ≠ "" → o.Password ≠ "" → o.Files ≠ [] → o.Repo = "" →
      (Upload W o).err = some "a repo must be set") ∧
    (o.Url ≠ "" → o.Username ≠ "" → o.Password ≠ "" → o.Files ≠ [] → o.Repo ≠ "" →
      o.Path = "" → (Upload W o).err = some "a path must be set") := by
  have hlen : o.Files.length < 1 ↔ o.Files = [] := by
    cases o.Files <;> simp
  by_cases h1 : o.Url = ""
  · simp [missingField, requiredFields, Upload, h1]
  by_cases h2 : o.Username = ""
  · simp [missingField, requiredFields, Upload, h1, h2]
  by_cases h3 : o.Password = ""
  · simp [missingField, requiredFields, Upload, h1, h2, h3]
  by_cases h4 : o.Files = []
  · simp [missingField, requiredFields, Upload, h1, h2, h3, h4]
  by_cases h5 : o.Repo = ""
  · simp [missingField, requiredFields, Upload, h1, h2, h3, h4, h5, hlen]
  by_cases h6 : o.Path = ""
  · simp [missingField, requiredFields, Upload, h1, h2, h3, h4, h5, h6, hlen]
  have hv : Valid o := ⟨h1, h2, h3, h4, h5, h6⟩
  refine ⟨?_, ?_, ?_, ?_, ?_, ?_, ?_, ?_⟩
  · simp [missingField, requiredFields, h1, h2, h3, h4, h5, h6]
  · intro _ f hf
    rw [Upload_of_valid W o hv]
    exact uploadLoop_err_not_missing W o o.Files f hf
  all_goals simp [h1, h2, h3, h4, h5, h6]

/-- C9: for every configuration in which Url, Username, Password, Repo or Path
is empty or Files has no element, `Upload` returns an error, its trace of
stat, walk, lstat, readdir, open and PUT actions is empty, and the receiver is
left as it was (`currentPath` is not assigned). -/
theorem Upload_invalid_no_effect (W : Host) (o : Nexus)
    (h : o.Url = "" ∨ o.Username = "" ∨ o.Password = "" ∨ o.Repo = "" ∨ o.Path = ""
      ∨ o.Files = []) :
    (Upload W o).err ≠ none ∧ (Upload W o).trace = [] ∧ (Upload W o).final = o := by
  have hlen : o.Files.length < 1 ↔ o.Files = [] := by
    cases o.Files <;> simp
  by_cases h1 : o.Url = ""
  · simp [Upload, h1]
  by_cases h2 : o.Username = ""
  · simp [Upload, h1, h2]
  by_cases h3 : o.Password = ""
  · simp [Upload, h1, h2, h3]
  by_cases h4 : o.Files = []
  · simp [Upload, h1, h2, h3, h4]
  by_cases h5 : o.Repo = ""
  · simp [Upload, h1, h2, h3, h4, h5, hlen]
  by_cases h6 : o.Path = ""
  · simp [Upload, h1, h2, h3, h4, h5, h6, hlen]
  rcases h with h | h | h | h | h | h <;> contradiction

/-- The frame property of C9 at a configuration whose repository is unset, on
the sample host, where `f.bin` exists and the server would answer 201. -/
theorem Upload_invalid_no_effect_witness :
    (Upload sampleHost { sampleNexus ["f.bin"] with Repo := "" }).err ≠ none ∧
    (Upload sampleHost { sampleNexus ["f.bin"] with Repo := "" }).trace = [] ∧
    (Upload sampleHost { sampleNexus ["f.bin"] with Repo := "" }).final
      = { sampleNexus ["f.bin"] with Repo := "" } :=
  Upload_invalid_no_effect sampleHost { sampleNexus ["f.bin"] with Repo := "" }
    (Or.inr (Or.inr (Or.inr (Or.inl rfl))))

/-! ## URL construction -/

/-- C3, as the claim states it, fails on a host whose separator is `/`: there
`filepath.ToSlash` changes nothing, so the backslash-separated `a\b.txt` and
`a/b.txt` give different URLs. -/
theorem nexusURL_backslash_counterexample :
    nexusURL sampleHost (sampleNexus []) ⟨"a\\b.txt", false⟩ = "http://h/r/p/a\\b.txt" ∧
    nexusURL sampleHost (sampleNexus []) ⟨"a/b.txt", false⟩ = "http://h/r/p/a/b.txt" ∧
    nexusURL sampleHost (sampleNexus []) ⟨"a\\b.txt", false⟩
      ≠ nexusURL sampleHost (sampleNexus []) ⟨"a/b.txt", false⟩ := by
  decide

/-- C3 (amended): for every host, configuration and target, `nexusURL` returns
exactly Url + "/" + Repo + "/" + Path + "/" + rel, where rel is the target's
FilePath with every occurrence of the host's own separator replaced by a
forward slash and every other character kept as it is (nothing is
URL-escaped); on a host whose separator is `/` rel is FilePath itself, and on
a host whose separator is the backslash `a\b.txt` and `a/b.txt` give the same
URL. -/
theorem nexusURL_eq (W : Host) (o : Nexus) (info : fileUploadInfo) :
    nexusURL W o info = o.Url ++ "/" ++ o.Repo ++ "/" ++ o.Path ++ "/"
      ++ String.mk (info.FilePath.data.map fun c => if c = W.Separator then '/' else c) ∧
    (W.Separator = '/' →
      nexusURL W o info = o.Url ++ "/" ++ o.Repo ++ "/" ++ o.Path ++ "/" ++ info.FilePath) ∧
    (W.Separator = '\\' →
      nexusURL W o ⟨"a\\b.txt", info.IsUploadingDir⟩
        = nexusURL W o ⟨"a/b.txt", info.IsUploadingDir⟩) := by
  refine ⟨?_, ?_, ?_⟩
  · unfold nexusURL ToSlash
    split_ifs with h
    · congr 1
      apply String.ext
      simp only [h]
      have : (fun c : Char => if c = '/' then '/' else c) = id := by
        funext c; split_ifs with hc <;> simp [hc]
      rw [this, List.map_id]
    · rfl
  · intro h
    simp [nexusURL, ToSlash, h]
  · intro h
    simp only [nexusURL, ToSlash, h]
    congr 1

/-! ## Response validation -/

/-- C5: for every HTTP response, `checkError` returns no error if and only if
the status code is 201; hence `writeFileToServer` returns an error whenever
the response it receives has any other status, and it returns nil exactly when
the file opens, the request is formed and the response has status 201. Status
200 and 204 are errors like every other. -/
theorem checkError_nil_iff_created (resp : Response) :
    (checkError resp = none ↔ resp.StatusCode = 201) ∧
    (∀ (W : Host) (o : Nexus) (path url : String),
      W.Do o.Username o.Password path url = .ok resp → resp.StatusCode ≠ 201 →
        (writeFileToServer W o path url).err ≠ none) ∧
    (∀ (W : Host) (o : Nexus) (path url : String),
      (writeFileToServer W o path url).err = none ↔
        W.Open path = none ∧ W.NewRequest url = none ∧
          ∃ r, W.Do o.Username o.Password path url = .ok r ∧ r.StatusCode = 201) ∧
    (∀ body, checkError ⟨200, body⟩ ≠ none ∧ checkError ⟨204, body⟩ ≠ none) := by
  have key : ∀ r : Response, checkError r = none ↔ r.StatusCode = 201 := by
    intro r
    unfold checkError
    split_ifs with h
    · simp [h]
    · cases r.Body with
      | error e => simp [h]
      | ok b => by_cases hb : 0 < b.length <;> simp [hb, h]
  have wfs : ∀ (W : Host) (o : Nexus) (path url : String),
      (writeFileToServer W o path url).err = none ↔
        W.Open path = none ∧ W.NewRequest url = none ∧
          ∃ r, W.Do o.Username o.Password path url = .ok r ∧ r.StatusCode = 201 := by
    intro W o path url
    unfold writeFileToServer
    cases hO : W.Open path with
    | some e => simp
    | none =>
      cases hN : W.NewRequest url with
      | some e => simp
      | none =>
        cases hD : W.Do o.Username o.Password path url with
        | error e => simp
        | ok r =>
          cases hC : checkError r with
          | some e =>
            have : ¬ r.StatusCode = 201 := fun h => by simp [(key r).2 h] at hC
            simp [hC, this]
          | none => simp [hC, (key r).1 hC]
  refine ⟨key resp, ?_, wfs, ?_⟩
  · intro W o path url hD hs h
    obtain ⟨_, _, r, hr, hr201⟩ := (wfs W o path url).1 h
    rw [hD] at hr
    cases hr
    exact hs hr201
  · intro body
    exact ⟨fun h => by simpa using (key ⟨200, body⟩).1 h,
      fun h => by simpa using (key ⟨204, body⟩).1 h⟩

/-- C6: for every response with a status other than 201 and a readable body
`b`, `checkError` builds an error message that contains the decimal text of
the status, the text `201`, and `b` itself when `b` is non-empty or the note
`no response body` when `b` is empty; the error `writeFileToServer` returns
for that response contains the message, and so does the error `Upload`
returns when the run ends on the PUT that got that response. -/
theorem checkError_message (resp : Response) (b : String)
    (hs : resp.StatusCode ≠ 201) (hb : resp.Body = .ok b) :
    ∃ msg, checkError resp = some msg ∧
      Contains msg (toString resp.StatusCode) ∧ Contains msg "201" ∧
      (b ≠ "" → Contains msg b) ∧ (b = "" → Contains msg "no response body") ∧
      (∀ (W : Host) (o : Nexus) (path url : String),
        W.Open path = none → W.NewRequest url = none →
        W.Do o.Username o.Password path url = .ok resp →
          ∃ m, (writeFileToServer W o path url).err = some m ∧ Contains m msg) ∧
      (∀ (W : Host) (o : Nexus) (url file : String),
        (Upload W o).trace.getLast? = some (.put url file) →
        W.Do o.Username o.Password file url = .ok resp →
          ∃ m, (Upload W o).err = some m ∧ Contains m msg) := by
  have hmsg : ∃ msg, checkError resp = some msg ∧
      Contains msg (toString resp.StatusCode) ∧ Contains msg "201" ∧
      (b ≠ "" → Contains msg b) ∧ (b = "" → Contains msg "no response body") := by
    unfold checkError
    simp only [hs, if_false, hb]
    by_cases hlen : 0 < b.length
    · simp only [hlen, if_true]
      refine ⟨_, rfl, ?_, ?_, fun _ => Contains.right _ _, fun hb0 => ?_⟩
      · exact Contains.trans (Contains.left _ _) (Contains.mid _ _ _)
      · exact Contains.trans (Contains.left _ _)
          (Contains.trans (Contains.right _ _) (by decide))
      · exact absurd hb0 ((length_pos_iff b).1 hlen)
    · simp only [hlen, if_false]
      have hb0 : b = "" := by
        by_contra hne
        exact hlen ((length_pos_iff b).2 hne)
      refine ⟨_, rfl, Contains.mid _ _ _, ?_, fun h => absurd hb0 h, fun _ => ?_⟩
      · exact Contains.trans (Contains.right _ _) (by decide)
      · exact Contains.trans (Contains.right _ _) (by decide)
  obtain ⟨msg, hc, h1, h2, h3, h4⟩ := hmsg
  refine ⟨msg, hc, h1, h2, h3, h4, ?_, ?_⟩
  · intro W o path url hO hN hD
    simp only [writeFileToServer, hO, hN, hD, hc]
    exact ⟨_, rfl, Contains.right _ _⟩
  · intro W o url file hl hD
    by_cases hv : Valid o
    · obtain ⟨ht, _, he⟩ := Upload_plan W o hv
      rw [ht] at hl
      obtain ⟨m, hm, hcm⟩ := failFast_put W o.Username o.Password (plan W o)
        (plan_putFailure W o) url file resp msg hl hD hc
      obtain ⟨ctx, hctx⟩ := he m hm
      exact ⟨_, hctx, Contains.append_left ctx hcm⟩
    · rw [(Upload_invalid W o hv).2] at hl
      simp at hl

/-- The message of C6 for status 500 and body `server error`. -/
theorem checkError_message_witness :
    (500 : Int) ≠ 201 ∧
    ∃ msg, checkError ⟨500, .ok "server error"⟩ = some msg ∧
      Contains msg (toString (500 : Int)) ∧ Contains msg "201" ∧
      ("server error" ≠ "" → Contains msg "server error") ∧
      ("server error" = "" → Contains msg "no response body") ∧
      (∀ (W : Host) (o : Nexus) (path url : String),
        W.Open path = none → W.NewRequest url = none →
        W.Do o.Username o.Password path url = .ok ⟨500, .ok "server error"⟩ →
          ∃ m, (writeFileToServer W o path url).err = some m ∧ Contains m msg) ∧
      (∀ (W : Host) (o : Nexus) (url file : String),
        (Upload W o).trace.getLast? = some (.put url file) →
        W.Do o.Username o.Password file url = .ok ⟨500, .ok "server error"⟩ →
          ∃ m, (Upload W o).err = some m ∧ Contains m msg) :=
  ⟨by decide, checkError_message ⟨500, .ok "server error"⟩ "server error" (by decide) rfl⟩

/-- The error of a single-file upload answered with status 500 and the body
`server error` holds `500`, `201` and `server error`. -/
theorem Upload_status_500_example :
    (Upload failingHost (sampleNexus ["f.bin"])).err
      = some ("could not upload single file f.bin - could not upload f.bin - "
        ++ "response was 500, expected 201; response body: server error") ∧
    toString (500 : Int) = "500" := by
  decide

/-! ## Fail-fast error propagation -/

/-- C4: for every valid configuration the actions of `Upload` are exactly
those of the steps of the host's plan, in list-then-walk order, up to and
including the first step that fails: the stat of an argument, the visit of an
entry of a walk (its `Lstat` or its listing failed), or the transfer of a file
(open, request, PUT, or a status other than 201). No step after it runs,
neither of the current argument nor of a later one; `Upload` returns nil when
no step fails and otherwise an error that holds the failure of that first
failing step. The callback turns every access error it is handed into an
error of its own. -/
theorem Upload_fail_fast (W : Host) (o : Nexus) (hv : Valid o) :
    (Upload W o).trace = (uptoFailure (hostPlan W o)).flatMap Out.trace ∧
    (firstFailure (hostPlan W o) = none → (Upload W o).err = none) ∧
    (∀ c, firstFailure (hostPlan W o) = some c →
      ∃ m, (Upload W o).err = some m ∧ Contains m c) ∧
    (∀ (before after : List Out) (s : Out) (c : String),
      hostPlan W o = before ++ s :: after → (∀ b ∈ before, b.err = none) → s.err = some c →
        (Upload W o).trace = before.flatMap Out.trace ++ s.trace ∧
        ∃ m, (Upload W o).err = some m ∧ Contains m c) ∧
    (∀ (aPath : String) (info : FileInfo) (e : String),
      uploadDirectory W o aPath info (some e)
        = ⟨some ("error: could not access file/dir - " ++ e), []⟩) := by
  obtain ⟨ht, hn, he⟩ := Upload_wraps_hostPlan W o hv
  refine ⟨ht, hn, he, ?_, fun _ _ _ => rfl⟩
  intro before after s c hp hb hs
  have hff := failFast_split before after s c hb hs
  rw [← hp] at hff
  rw [hff] at ht he
  exact ⟨ht, he c rfl⟩

/-- The fail-fast property of C4 with the arguments `lost`, `locked`, `d` and
then `f.bin`: an entry whose `Lstat` fails, a directory that cannot be listed
and a PUT answered with 500 each end the run at once; `x.txt` of the same
directory and the later argument `f.bin` are never opened. -/
theorem Upload_fail_fast_witness :
    Valid (sampleNexus ["lost", "f.bin"]) ∧
    (Upload brokenHost (sampleNexus ["lost", "f.bin"])).trace
      = [.stat "lost", .walk "lost", .lstat "lost", .readdir "lost", .lstat "lost/gone"] ∧
    (∃ m, (Upload brokenHost (sampleNexus ["lost", "f.bin"])).err = some m ∧
      Contains m "lstat lost/gone: no such file or directory") ∧
    (Upload brokenHost (sampleNexus ["locked", "f.bin"])).trace
      = [.stat "locked", .walk "locked", .lstat "locked", .readdir "locked",
          .lstat "locked/in", .readdir "locked/in"] ∧
    (∃ m, (Upload brokenHost (sampleNexus ["locked", "f.bin"])).err = some m ∧
      Contains m "open locked/in: permission denied") ∧
    (Upload failingHost (sampleNexus ["d", "f.bin"])).trace
      = [.stat "d", .walk "d", .lstat "d", .readdir "d", .lstat "d/sub", .readdir "d/sub",
          .lstat "d/sub/y.txt", .open "d/sub/y.txt",
          .put "http://h/r/p//sub/y.txt" "d/sub/y.txt"] ∧
    (∃ m, (Upload failingHost (sampleNexus ["d", "f.bin"])).err = some m ∧
      Contains m "500") :=
  ⟨by decide, by decide,
    (Upload_fail_fast brokenHost (sampleNexus ["lost", "f.bin"]) (by decide)).2.2.1 _
      (by decide),
    by decide,
    (Upload_fail_fast brokenHost (sampleNexus ["locked", "f.bin"]) (by decide)).2.2.1 _
      (by decide),
    by decide,
    (Upload_fail_fast failingHost (sampleNexus ["d", "f.bin"]) (by decide)).2.2.1 _
      (by decide)⟩

/-! ## Single-file upload -/

/-- C7, as the claim states it, fails: `secret.bin` and `pct%zz.txt` are
existing regular files and the server answers every PUT with 201, yet for the
first, which cannot be opened, and for the second, for whose URL no request
can be formed, `Upload` issues no PUT and returns an error. -/
theorem Upload_single_file_counterexample :
    Valid (sampleNexus ["secret.bin"]) ∧ Valid (sampleNexus ["pct%zz.txt"]) ∧
    strictHost.Stat "secret.bin" = .ok ⟨"secret.bin", false⟩ ∧
    strictHost.Stat "pct%zz.txt" = .ok ⟨"pct%zz.txt", false⟩ ∧
    (∀ user pass file url, ∃ body, strictHost.Do user pass file url = .ok ⟨201, body⟩) ∧
    puts (Upload strictHost (sampleNexus ["secret.bin"])).trace = [] ∧
    (Upload strictHost (sampleNexus ["secret.bin"])).err
      = some ("could not upload single file secret.bin - could not open file secret.bin - "
        ++ "open secret.bin: permission denied") ∧
    puts (Upload strictHost (sampleNexus ["pct%zz.txt"])).trace = [] ∧
    (Upload strictHost (sampleNexus ["pct%zz.txt"])).err
      = some ("could not upload single file pct%zz.txt - "
        ++ "could not form http request for file pct%zz.txt - "
        ++ "parse \"http://h/r/p/pct%zz.txt\": invalid URL escape \"%zz\"") :=
  ⟨by decide, by decide, rfl, rfl, fun _ _ _ _ => ⟨_, rfl⟩,
    by decide, by decide, by decide, by decide⟩

/-- C7 (amended): for every valid configuration whose Files is the one path
`p` to an existing regular file (stat succeeds and reports a non-directory
whose base name holds no separator), the URL text of the transfer is
Url/Repo/Path/ followed by the base name alone. When the file opens, the
request for that text is formed and the server answers 201, `Upload` performs
exactly stat, open and one PUT for that text and returns nil; when the file
does not open, or the request cannot be formed, `Upload` issues no PUT and
returns an error. -/
theorem Upload_single_file (W : Host) (o : Nexus) (p : String) (info : FileInfo)
    (hv : Valid o) (hF : o.Files = [p])
    (hstat : W.Stat p = .ok info) (hreg : info.IsDir = false)
    (hbase : W.Separator = '/' ∨ W.Separator ∉ info.Name.data) :
    (∀ resp, W.Open p = none →
      W.NewRequest (o.Url ++ "/" ++ o.Repo ++ "/" ++ o.Path ++ "/" ++ info.Name) = none →
      W.Do o.Username o.Password p
        (o.Url ++ "/" ++ o.Repo ++ "/" ++ o.Path ++ "/" ++ info.Name) = .ok resp →
      resp.StatusCode = 201 →
        (Upload W o).trace
          = [.stat p, .open p,
              .put (o.Url ++ "/" ++ o.Repo ++ "/" ++ o.Path ++ "/" ++ info.Name) p] ∧
        puts (Upload W o).trace
          = [(o.Url ++ "/" ++ o.Repo ++ "/" ++ o.Path ++ "/" ++ info.Name, p)] ∧
        (Upload W o).err = none) ∧
    (∀ e, W.Open p = some e →
      (Upload W o).trace = [.stat p, .open p] ∧ puts (Upload W o).trace = [] ∧
      (Upload W o).err ≠ none) ∧
    (∀ e, W.Open p = none →
      W.NewRequest (o.Url ++ "/" ++ o.Repo ++ "/" ++ o.Path ++ "/" ++ info.Name) = some e →
        (Upload W o).trace = [.stat p, .open p] ∧ puts (Upload W o).trace = [] ∧
        (Upload W o).err ≠ none) := by
  have hurl : nexusURL W { o with currentPath := p } ⟨info.Name, false⟩
      = o.Url ++ "/" ++ o.Repo ++ "/" ++ o.Path ++ "/" ++ info.Name := by
    simp only [nexusURL, ToSlash_of_not_mem _ _ hbase]
  rw [Upload_of_valid W o hv, hF]
  refine ⟨fun resp hopen hreq hdo h201 => ?_, fun e hopen => ?_, fun e hopen hreq => ?_⟩
  · have hc : checkError resp = none := by simp [checkError, h201]
    have hw : writeFileToServer W { o with currentPath := p } p
        (nexusURL W { o with currentPath := p } ⟨info.Name, false⟩)
        = ⟨none, [.open p,
            .put (o.Url ++ "/" ++ o.Repo ++ "/" ++ o.Path ++ "/" ++ info.Name) p]⟩ := by
      rw [hurl]
      simp only [writeFileToServer, hopen, hreq, hdo, hc]
    simp [uploadLoop, hstat, hreg, hw, puts]
  · have hw : writeFileToServer W { o with currentPath := p } p
        (nexusURL W { o with currentPath := p } ⟨info.Name, false⟩)
        = ⟨some ("could not open file " ++ p ++ " - " ++ e), [.open p]⟩ := by
      simp only [writeFileToServer, hopen]
    simp [uploadLoop, hstat, hreg, hw, puts]
  · have hw : writeFileToServer W { o with currentPath := p } p
        (nexusURL W { o with currentPath := p } ⟨info.Name, false⟩)
        = ⟨some ("could not form http request for file " ++ p ++ " - " ++ e), [.open p]⟩ := by
      rw [hurl]
      simp only [writeFileToServer, hopen, hreq]
    simp [uploadLoop, hstat, hreg, hw, puts]

/-- The end-to-end scenario of C7: `http://h`, `r`, `p` and the file `f.bin`
give exactly one PUT, to `http://h/r/p/f.bin`, and nil. -/
theorem Upload_single_file_witness :
    (Upload sampleHost (sampleNexus ["f.bin"])).trace
      = [.stat "f.bin", .open "f.bin", .put "http://h/r/p/f.bin" "f.bin"] ∧
    puts (Upload sampleHost (sampleNexus ["f.bin"])).trace
      = [("http://h/r/p/f.bin", "f.bin")] ∧
    (Upload sampleHost (sampleNexus ["f.bin"])).err = none :=
  (Upload_single_file sampleHost (sampleNexus ["f.bin"]) "f.bin" ⟨"f.bin", false⟩
    (by decide) rfl rfl rfl (Or.inl rfl)).1 ⟨201, .ok ""⟩ rfl rfl rfl rfl

/-! ## Directory upload -/

/-- C2 fails on the code: stripping the root with `strings.TrimPrefix` leaves
the separator that follows it, so for root `root` and entry `root/a/b.txt` the
relative path handed to `nexusURL` is `/a/b.txt` and the PUT goes to
Url/Repo/Path//a/b.txt; for the file `x.txt` lying directly in `d` the URL of
the walk's PUT is `http://h/r/p//x.txt`, not `nexusURL` of the bare name. -/
theorem uploadDirectory_keeps_separator :
    (∀ root rest : String,
      TrimPrefix (ToSlash '/' (root ++ "/" ++ rest)) (ToSlash '/' root) = "/" ++ rest) ∧
    TrimPrefix (ToSlash '/' "root/a/b.txt") (ToSlash '/' "root") = "/a/b.txt" ∧
    puts (Upload sampleHost (sampleNexus ["root"])).trace
      = [("http://h/r/p//a/b.txt", "root/a/b.txt")] ∧
    (Upload sampleHost (sampleNexus ["root"])).err = none ∧
    puts (Walk sampleHost { sampleNexus ["d"] with currentPath := "d" } "d").trace
      = [("http://h/r/p//sub/y.txt", "d/sub/y.txt"), ("http://h/r/p//x.txt", "d/x.txt")] ∧
    nexusURL sampleHost { sampleNexus ["d"] with currentPath := "d" } ⟨"x.txt", true⟩
      = "http://h/r/p/x.txt" := by
  refine ⟨fun root rest => ?_, by decide⟩
  simp only [ToSlash, if_true, String.append_assoc]
  exact TrimPrefix_append root ("/" ++ rest)

/-- C8: for a directory argument whose enumeration and transfers all succeed,
`Upload` issues exactly one PUT for each non-directory entry under it, in walk
order, and none for a directory entry, the root included. On the directory
`d` holding `x.txt` and `sub/y.txt` it issues exactly two PUTs, and the
relative paths it builds for them are `/sub/y.txt` and `/x.txt`, each with the
separator that followed the root, not `sub/y.txt` and `x.txt`. -/
theorem Upload_directory_two_files :
    (∀ (W : Host) (o : Nexus) (root : String) (info : FileInfo),
      Valid o → o.Files = [root] → W.Stat root = .ok info → info.IsDir = true →
      (Upload W o).err = none →
        puts (Upload W o).trace
          = ((visits W root (W.Tree root)).filter fun v => !v.info.IsDir).map
              (entryPut W { o with currentPath := root })) ∧
    (Upload sampleHost (sampleNexus ["d"])).err = none ∧
    (Upload sampleHost (sampleNexus ["d"])).trace
      = [.stat "d", .walk "d", .lstat "d", .readdir "d", .lstat "d/sub", .readdir "d/sub",
          .lstat "d/sub/y.txt", .open "d/sub/y.txt",
          .put "http://h/r/p//sub/y.txt" "d/sub/y.txt",
          .lstat "d/x.txt", .open "d/x.txt", .put "http://h/r/p//x.txt" "d/x.txt"] ∧
    TrimPrefix (ToSlash '/' "d/sub/y.txt") (ToSlash '/' "d") = "/sub/y.txt" ∧
    TrimPrefix (ToSlash '/' "d/x.txt") (ToSlash '/' "d") = "/x.txt" :=
  ⟨Upload_directory_puts_of_ok, by decide⟩

/-! ## The unset traversal root -/

/-- C10, as the claim states it, fails: with `currentPath` unset the walk of
an empty directory and the walk of a directory holding only sub-directories
return nil, and `Upload` given `f.bin` and then the empty path has issued the
PUT of `f.bin` before it fails on the empty path. -/
theorem Walk_unset_root_counterexample :
    (sampleNexus []).currentPath = "" ∧
    (Walk sampleHost (sampleNexus []) "empty").err = none ∧
    (Walk sampleHost (sampleNexus []) "dirs").err = none ∧
    (Upload sampleHost (sampleNexus ["f.bin", ""])).err
      = some "could not stat  - stat : no such file or directory" ∧
    puts (Upload sampleHost (sampleNexus ["f.bin", ""])).trace
      = [("http://h/r/p/f.bin", "f.bin")] := by
  decide

/-- C10 (amended): a directory walk run while `currentPath` is empty issues no
PUT; it returns nil exactly when every entry it visits is a directory that
could be listed (an empty directory, or one holding only such directories),
and an error as soon as it visits a non-directory entry or an entry that
cannot be accessed. On a host where stat of the empty path fails, `Upload`
given the empty path in Files returns an error and performs nothing for the
arguments that follow the empty path; when the empty path is the first
argument it issues no PUT at all. -/
theorem Walk_unset_root (W : Host) (o : Nexus) (root : String) (h : o.currentPath = "") :
    puts (Walk W o root).trace = [] ∧
    ((Walk W o root).err = none ↔
      ∀ v ∈ visits W root (W.Tree root), v.info.IsDir = true ∧ v.err = none) ∧
    (∀ (o1 : Nexus) (e : String), W.Stat "" = .error e → "" ∈ o1.Files →
      (Upload W o1).err ≠ none) ∧
    (∀ (o1 : Nexus) (e : String) (pre post : List String), W.Stat "" = .error e →
      o1.Files = pre ++ "" :: post →
        (Upload W o1).trace = (Upload W { o1 with Files := pre ++ [""] }).trace) ∧
    (∀ (o1 : Nexus) (e : String) (rest : List String), W.Stat "" = .error e →
      o1.Files = "" :: rest → puts (Upload W o1).trace = []) := by
  refine ⟨?_, ?_, ?_, ?_, ?_⟩
  · rw [Walk_eq_failFast]
    apply failFast_puts_nil
    intro s hs
    rcases List.mem_cons.1 hs with hs | hs
    · subst hs; rfl
    · obtain ⟨v, _, hv⟩ := List.mem_map.1 hs
      subst hv
      exact (entryStep_unset W o v h).1
  · rw [Walk_eq_failFast, failFast_err_none_iff]
    constructor
    · intro hall v hv
      exact (entryStep_unset W o v h).2.1
        (hall _ (List.mem_cons_of_mem _ (List.mem_map_of_mem _ hv)))
    · intro hall s hs
      rcases List.mem_cons.1 hs with hs | hs
      · subst hs; rfl
      · obtain ⟨v, hv, hsv⟩ := List.mem_map.1 hs
        subst hsv
        exact (entryStep_unset W o v h).2.2 (hall v hv)
  · intro o1 e hS hm
    by_cases hv : Valid o1
    · rw [Upload_of_valid W o1 hv]
      exact uploadLoop_empty_path_err W e hS o1.Files hm o1
    · exact (Upload_invalid W o1 hv).1
  · intro o1 e pre post hS hF
    by_cases hv : Valid o1
    · have hv2 : Valid { o1 with Files := pre ++ [""] } := by
        obtain ⟨h1, h2, h3, _, h5, h6⟩ := hv
        exact ⟨h1, h2, h3, by simp, h5, h6⟩
      rw [Upload_of_valid W o1 hv, Upload_of_valid W _ hv2, hF]
      have := uploadLoop_empty_path_trace W e hS pre post o1
      rw [this]
      exact (uploadLoop_plan W (pre ++ [""]) o1).1.trans
        (uploadLoop_plan W (pre ++ [""]) { o1 with Files := pre ++ [""] }).1.symm
    · have hv2 : ¬ Valid { o1 with Files := pre ++ [""] } := by
        intro hv2
        obtain ⟨h1, h2, h3, _, h5, h6⟩ := hv2
        exact hv ⟨h1, h2, h3, by simp [hF], h5, h6⟩
      rw [(Upload_invalid W o1 hv).2, (Upload_invalid W _ hv2).2]
  · intro o1 e rest hS hF
    by_cases hv : Valid o1
    · rw [Upload_of_valid W o1 hv, hF]
      simp [uploadLoop, hS, puts]
    · rw [(Upload_invalid W o1 hv).2]
      rfl

/-- The walks of C10 on the sample host with `currentPath` unset: no PUT for
the directory `d`, although it holds files. -/
theorem Walk_unset_root_witness :
    (sampleNexus []).currentPath = "" ∧
    puts (Walk sampleHost (sampleNexus []) "d").trace = [] ∧
    (Walk sampleHost (sampleNexus []) "d").err = some "current root path cannot be empty" :=
  have h := Walk_unset_root sampleHost (sampleNexus []) "d" rfl
  ⟨rfl, h.1, by decide⟩

end Endeavour
